import Mathlib

/-!
Verification of the MAFA-agent request orchestration and resilience layer.

The definitions below are a shallow embedding of the Python sources:
* src/http_client.py  — request-scoped credential and GET cache, retry config;
* src/API.py          — rate limiter, request validation, websocket
                        connection manager, endpoints, health check;
* src/tools/investment_strategy_tools.py — parallel fetch coordinator.

Stateful Python (contextvars, mutable lists and dicts) is embedded as explicit
state passing; Python exceptions are embedded as Except values; wall-clock
timestamps are rationals.
-/

set_option autoImplicit false

/- ──────────────────────────────────────────────────────────────────────
   Responses (requests.Response, opaque to this layer: status plus body).
   `Response.ok` embeds requests' `Response.ok`: true iff status < 400.
   ────────────────────────────────────────────────────────────────────── -/

structure Response where
  status : Nat
  body : String
deriving DecidableEq, Repr

def Response.ok (r : Response) : Bool :=
  r.status < 400

/- ──────────────────────────────────────────────────────────────────────
   Request context (src/http_client.py).

   The two contextvars `_request_token` and `_request_cache` form the
   per-logical-request state; a `Ctx` value is the content of one
   Python `contextvars.Context` restricted to these two variables.
   The GET cache is a dict from URL to Response, embedded as an
   association list with dict-assignment (replace-or-append) insertion.
   ────────────────────────────────────────────────────────────────────── -/

structure Ctx where
  token : Option String
  cache : Option (List (String × Response))
deriving DecidableEq, Repr

/-- `set_request_token(token)`: store the JWT in the current context only. -/
def set_request_token (tok : Option String) (c : Ctx) : Ctx :=
  { c with token := tok }

/-- `init_request_cache()`: enable per-request GET caching (fresh empty dict). -/
def init_request_cache (c : Ctx) : Ctx :=
  { c with cache := some [] }

/-- `clear_request_cache()`: clear and disable the GET cache. -/
def clear_request_cache (c : Ctx) : Ctx :=
  { c with cache := none }

/-- `_request_token.get()` — the credential resolution used by
`get_auth_headers` when no explicit token is passed. -/
def resolve_credential (c : Ctx) : Option String :=
  c.token

/- ──────────────────────────────────────────────────────────────────────
   Contextvar semantics across concurrent logical requests.

   Python gives every task its own `contextvars.Context`; `ContextVar.set`
   mutates only the calling task's context, and `contextvars.copy_context()`
   snapshots the caller's context for a spawned subtask (this is what
   `_fetch_parallel` does for its worker threads, and what the server does
   for each inbound request).  We embed the system as a map from task id
   to context; each primitive touches exactly one task's context.
   ────────────────────────────────────────────────────────────────────── -/

def Sys : Type := Nat → Ctx

/-- `set_request_token` executed by task `tid`: mutates only `tid`'s context. -/
def Sys.attach (s : Sys) (tid : Nat) (tok : String) : Sys :=
  fun i => if i = tid then set_request_token (some tok) (s i) else s i

/-- `contextvars.copy_context()` performed by `parent`, installing the
snapshot as the context of the spawned task `child`. -/
def Sys.spawn (s : Sys) (parent child : Nat) : Sys :=
  fun i => if i = child then s parent else s i

/-- `_request_token.get()` executed by task `tid`. -/
def Sys.resolve (s : Sys) (tid : Nat) : Option String :=
  resolve_credential (s tid)

/-- Context of a freshly started logical request: both contextvars at their
declared defaults (`default=None`). -/
def freshCtx : Ctx :=
  { token := none, cache := none }

/- ──────────────────────────────────────────────────────────────────────
   Rate limiter (src/API.py, class RateLimiter).

   Per-key state is the list of admitted timestamps, in call order
   (`defaultdict(list)` starts every key at []).  `_maybe_cleanup` only
   deletes keys all of whose timestamps would anyway be discarded by the
   filter on the key's next access, so it is invisible to the per-key
   behaviour of `is_allowed` and is not modelled.
   ────────────────────────────────────────────────────────────────────── -/

structure RateLimiter where
  max_requests : Nat
  window_seconds : ℚ

/-- `RateLimiter.is_allowed(key)` for one key whose stored timestamps are
`ts`, called at wall-clock time `now`: filter out timestamps at or before
`now - window_seconds`, refuse if `max_requests` remain, otherwise append
`now` and admit.  Returns the verdict and the key's new stored list. -/
def RateLimiter.is_allowed (rl : RateLimiter) (ts : List ℚ) (now : ℚ) :
    Bool × List ℚ :=
  let kept := ts.filter (fun t => now - rl.window_seconds < t)
  if rl.max_requests ≤ kept.length then (false, kept)
  else (true, kept ++ [now])

/-- A sequence of `is_allowed` calls for one key at the given times,
returning the list of verdicts and the final stored state. -/
def RateLimiter.run (rl : RateLimiter) (ts : List ℚ) :
    List ℚ → List Bool × List ℚ
  | [] => ([], ts)
  | now :: rest =>
      let r := rl.is_allowed ts now
      let rec' := rl.run r.2 rest
      (r.1 :: rec'.1, rec'.2)

/-- The times of the admitted calls of a call sequence, in call order. -/
def RateLimiter.admitted (rl : RateLimiter) (ts : List ℚ) :
    List ℚ → List ℚ
  | [] => []
  | now :: rest =>
      let r := rl.is_allowed ts now
      (if r.1 then [now] else []) ++ rl.admitted r.2 rest

example : (RateLimiter.run ⟨2, 10⟩ [] [0, 1, 2]).1 = [true, true, false] := by
  norm_num [RateLimiter.run, RateLimiter.is_allowed, List.filter]

example : RateLimiter.admitted ⟨2, 10⟩ [] [0, 1, 2, 12] = [0, 1, 12] := by
  norm_num [RateLimiter.admitted, RateLimiter.is_allowed, List.filter]

/- ──────────────────────────────────────────────────────────────────────
   GET with per-request caching (src/http_client.py, `get`).

   The network (`_session.get`) is an oracle `net : String → Response`;
   the third component of the result counts outbound network calls made
   by this invocation (0 or 1).  Dict assignment `cache[url] = response`
   is replace-or-append on the association list.
   ────────────────────────────────────────────────────────────────────── -/

def lookupCache (cache : List (String × Response)) (url : String) :
    Option Response :=
  (cache.find? (fun p => p.1 = url)).map (fun p => p.2)

def cacheInsert (cache : List (String × Response)) (url : String)
    (r : Response) : List (String × Response) :=
  if cache.any (fun p => p.1 = url) then
    cache.map (fun p => if p.1 = url then (url, r) else p)
  else cache ++ [(url, r)]

/-- `get(url)`: consult the request cache; on a hit return the cached
response with no network call; otherwise call the network and store the
response in the cache only when the cache is active and the response is
successful. -/
def http_client.get (net : String → Response) (c : Ctx) (url : String) :
    Response × Ctx × Nat :=
  match c.cache with
  | some cache =>
      match lookupCache cache url with
      | some r => (r, c, 0)
      | none =>
          let response := net url
          if response.ok then
            (response, { c with cache := some (cacheInsert cache url response) }, 1)
          else (response, c, 1)
  | none => (net url, c, 1)

/-- Two consecutive `get(url)` calls in one request; returns the two
responses, the final context, and the total number of outbound calls. -/
def getTwice (net : String → Response) (c : Ctx) (url : String) :
    Response × Response × Ctx × Nat :=
  let r1 := http_client.get net c url
  let r2 := http_client.get net r1.2.1 url
  (r1.1, r2.1, r2.2.1, r1.2.2 + r2.2.2)

/- ──────────────────────────────────────────────────────────────────────
   Retry policy (src/http_client.py, `_retry_strategy`).

   The configuration below is translated from the source.  The executor
   that interprets it lives in urllib3 (not under src/), so it is
   modelled from the spec.
   ────────────────────────────────────────────────────────────────────── -/

structure RetryStrategy where
  total : Nat
  backoff_factor : ℚ
  status_forcelist : List Nat
  allowed_methods : List String

/-- The retry configuration mounted on the shared session. -/
def retry_strategy : RetryStrategy :=
  ⟨3, 1/2, [502, 503, 504], ["GET", "POST", "PUT", "DELETE"]⟩

/-- A response status triggers a retry iff the method is in the allowed
list and the status is in the forcelist (gateway/unavailable only). -/
def shouldRetry (rs : RetryStrategy) (method : String) (status : Nat) : Bool :=
  decide (method ∈ rs.allowed_methods) && decide (status ∈ rs.status_forcelist)

/-- The delay slept before the (k+1)-th retry: factor * 2 ^ k. -/
def backoffDelay (rs : RetryStrategy) (k : Nat) : ℚ :=
  rs.backoff_factor * 2 ^ k

/-- Outcome of a request after the retry layer. -/
inductive RequestOutcome where
  | success (r : Response)
  | transientFailure (lastStatus : Nat)
deriving DecidableEq, Repr

/-- Modelled from the spec: urllib3's retry executor (not under src/;
only its configuration `_retry_strategy` is).  "Retried up to 3 attempts
total on responses with status 502/503/504 only — never on 4xx; backoff
is exponential starting at 0.5 time units (0.5, 1, 2 …) between
attempts"; when the budget is exhausted the transient upstream failure
is surfaced.  `oracle i` is the response the upstream gives to the
(i+1)-th attempt; the result carries the list of backoff sleeps. -/
def attemptFrom (rs : RetryStrategy) (method : String)
    (oracle : Nat → Response) : Nat → Nat → RequestOutcome × List ℚ
  | i, 0 =>
      let r := oracle i
      if shouldRetry rs method r.status then
        (RequestOutcome.transientFailure r.status, [])
      else (RequestOutcome.success r, [])
  | i, remaining + 1 =>
      let r := oracle i
      if shouldRetry rs method r.status then
        let rec' := attemptFrom rs method oracle (i + 1) remaining
        (rec'.1, backoffDelay rs i :: rec'.2)
      else (RequestOutcome.success r, [])

/-- Modelled from the spec: issue a request under the retry policy —
at most `rs.total` attempts in total. -/
def retryRequest (rs : RetryStrategy) (method : String)
    (oracle : Nat → Response) : RequestOutcome × List ℚ :=
  attemptFrom rs method oracle 0 (rs.total - 1)

/- ──────────────────────────────────────────────────────────────────────
   WebSocket connection manager (src/API.py, class ConnectionManager).

   Connections are opaque handles (Nat).  A send outcome oracle
   `send : Nat → Bool` tells whether `connection.send_json(message)`
   succeeds (true) or raises (false).  `broadcast` iterates over
   `active_connections`, swallowing per-connection exceptions (it only
   logs them); the registry list is not modified by `broadcast`.
   ────────────────────────────────────────────────────────────────────── -/

structure ConnectionManager where
  active_connections : List Nat
deriving DecidableEq, Repr

/-- `disconnect(websocket)`: remove the handle if present (list.remove
deletes the first occurrence). -/
def ConnectionManager.disconnect (m : ConnectionManager) (c : Nat) :
    ConnectionManager :=
  ⟨m.active_connections.erase c⟩

/-- The connections that actually receive the event during the
`broadcast` loop: those whose send succeeds; a raising send is caught,
logged and the loop continues. -/
def broadcastDelivered (send : Nat → Bool) : List Nat → List Nat
  | [] => []
  | c :: rest =>
      (if send c then [c] else []) ++ broadcastDelivered send rest

/-- `broadcast(message)`: deliver to every registered connection,
returning the delivered list and the manager afterwards (the source
never mutates `active_connections` inside `broadcast`). -/
def ConnectionManager.broadcast (m : ConnectionManager)
    (send : Nat → Bool) : List Nat × ConnectionManager :=
  (broadcastDelivered send m.active_connections, m)

/- ──────────────────────────────────────────────────────────────────────
   Parallel fetch coordinator
   (src/tools/investment_strategy_tools.py, `_fetch_parallel`).

   A task is a thunk returning `Except ε α` (an exception or a value).
   The thread pool is embedded as a future table written under an
   arbitrary completion schedule: `order` lists the task indices in the
   order the pool happens to finish them; each completed future stores
   its own task's result in its own slot and nothing else.  Joining is
   the sequential list comprehension `[f.result() for f in futures]`,
   which re-raises the first stored exception it meets.
   ────────────────────────────────────────────────────────────────────── -/

/-- One pool step: the completing task `i` stores its own result in its
own future slot and touches nothing else. -/
def poolStep {ε α : Type} (tasks : List (Unit → Except ε α))
    (futures : List (Option (Except ε α))) (i : Nat) :
    List (Option (Except ε α)) :=
  match tasks[i]? with
  | some f => futures.set i (some (f ()))
  | none => futures

/-- Run the submitted tasks under completion schedule `order`; slot `i`
of the resulting future table holds `tasks[i] ()` once task `i` ran. -/
def execSchedule {ε α : Type} (tasks : List (Unit → Except ε α))
    (order : List Nat) : List (Option (Except ε α)) :=
  order.foldl (poolStep tasks) (List.replicate tasks.length none)

/-- `f.result()` for every future in submission order: the first stored
exception is re-raised; otherwise the values are returned in order. -/
def joinResults {ε α : Type} : List (Except ε α) → Except ε (List α)
  | [] => Except.ok []
  | Except.error e :: _ => Except.error e
  | Except.ok a :: rest =>
      match joinResults rest with
      | Except.error e => Except.error e
      | Except.ok as => Except.ok (a :: as)

/-- `_fetch_parallel(*funcs)`: with at most one task, run it inline;
otherwise submit all tasks to the pool (each with a copy of the current
context), let them complete in schedule order, and join the futures in
submission order. -/
def fetchParallel {ε α : Type} (tasks : List (Unit → Except ε α))
    (order : List Nat) : Except ε (List α) :=
  if tasks.length ≤ 1 then joinResults (tasks.map (fun f => f ()))
  else joinResults ((execSchedule tasks order).filterMap id)

/- ──────────────────────────────────────────────────────────────────────
   Input sanitization (src/API.py, MCPQueryRequest.sanitize_query).
   ────────────────────────────────────────────────────────────────────── -/

/-- `p.isPrefixOf s` on character lists. -/
def startsWith : List Char → List Char → Bool
  | [], _ => true
  | _ :: _, [] => false
  | p :: ps, c :: cs => p = c && startsWith ps cs

/-- Python's `pat in s` substring test, on character lists. -/
def containsSub (pat : List Char) : List Char → Bool
  | [] => startsWith pat []
  | s@(_ :: rest) => startsWith pat s || containsSub pat rest

def dangerous_patterns : List String :=
  ["DROP", "DELETE", "TRUNCATE", "<script>", "javascript:"]

/-- Python's `str.strip()` on character lists: drop whitespace from both
ends. -/
def stripChars (s : List Char) : List Char :=
  (((s.dropWhile Char.isWhitespace).reverse).dropWhile Char.isWhitespace).reverse

/-- `sanitize_query`: uppercase the query (`v.upper()`, character-wise on
the text), raise a validation error if any denylisted pattern occurs in
the uppercased text, else return the stripped query.  Runs during
request-model validation, before the endpoint handler (and hence before
any backend call). -/
def sanitize_query (v : String) : Except String String :=
  let v_upper := v.data.map Char.toUpper
  if dangerous_patterns.any (fun p => containsSub p.data v_upper) then
    Except.error "Query contains potentially dangerous content"
  else Except.ok (String.mk (stripChars v.data))

/- ──────────────────────────────────────────────────────────────────────
   Agent / orchestration endpoints (src/API.py).

   A handler is a function from the prepared request context to a result
   and a final context (its GET calls may populate the cache); a Python
   exception inside the handler is an `Except.error`.  The `finally`
   block of the source is embedded by applying the cleanup to the
   handler's final context on every branch of the match on its result.
   ────────────────────────────────────────────────────────────────────── -/

/-- `execute_agent_endpoint` (and the other four agent endpoints, which
share its shape): set the token, enable the cache, run the agent, map an
agent exception to an HTTP 500 error, and in all cases clear the cache
and reset the token. -/
def execute_agent_endpoint (handler : Ctx → Except String String × Ctx)
    (token : String) (c : Ctx) : Except String String × Ctx :=
  let c2 := init_request_cache (set_request_token (some token) c)
  let hr := handler c2
  let resp : Except String String :=
    match hr.1 with
    | Except.ok r => Except.ok r
    | Except.error _ => Except.error "Failed to execute agent"
  (resp, set_request_token none (clear_request_cache hr.2))

/-- `mcp_query_endpoint`: same lifecycle, but an orchestration exception
is converted into a safe error payload returned with HTTP 200; the
`finally` cleanup still runs. -/
def mcp_query_endpoint (orchestrate : Ctx → Except String String × Ctx)
    (token : String) (c : Ctx) : Except String String × Ctx :=
  let c2 := init_request_cache (set_request_token (some token) c)
  let hr := orchestrate c2
  let resp : Except String String :=
    match hr.1 with
    | Except.ok r => Except.ok r
    | Except.error _ => Except.ok "Internal server error"
  (resp, set_request_token none (clear_request_cache hr.2))

/- ──────────────────────────────────────────────────────────────────────
   Health check (src/API.py, health_check).

   The status strings of the four dependency checks come from the
   monitoring module (outside this layer); the aggregation into the
   overall status is the code under test.
   ────────────────────────────────────────────────────────────────────── -/

structure HealthChecks where
  redis : String
  supabase : String
  broker_api : String
  mcp_servers : String
deriving DecidableEq, Repr

/-- A dependency counts as healthy-or-intentionally-unavailable. -/
def statusOkOrUnavailable (s : String) : Bool :=
  s = "healthy" || s = "unavailable"

/-- `health_check`: overall status is "healthy" iff each of redis,
supabase and mcp_servers reports "healthy" or "unavailable" (the
broker_api check is reported but not consulted by `critical_healthy`). -/
def health_check (c : HealthChecks) : String :=
  let critical_healthy :=
    [c.redis, c.supabase, c.mcp_servers].all statusOkOrUnavailable
  if critical_healthy then "healthy" else "degraded"

/- ──────────────────────────────────────────────────────────────────────
   Theorems.
   ────────────────────────────────────────────────────────────────────── -/

/-- C1: a credential attached by request A mutates only A's context, so
request B's credential resolution is unaffected by A's attach (it sees
only what B itself attached — none if B's context is fresh), while a
subtask spawned from A with a context snapshot observes A's credential. -/
theorem credential_isolation (s : Sys) (A B child : Nat) (tok : String)
    (hAB : A ≠ B) :
    Sys.resolve (Sys.attach s A tok) B = Sys.resolve s B ∧
    (s B = freshCtx → Sys.resolve (Sys.attach s A tok) B = none) ∧
    Sys.resolve (Sys.spawn (Sys.attach s A tok) A child) child = some tok := by
  have hBA : ¬(B = A) := fun h => hAB h.symm
  refine ⟨?_, ?_, ?_⟩
  · simp [Sys.resolve, Sys.attach, hBA]
  · intro hB
    simp [Sys.resolve, Sys.attach, hBA, resolve_credential, hB, freshCtx]
  · simp [Sys.resolve, Sys.spawn, Sys.attach, resolve_credential,
      set_request_token]

/-- Witness for C1 at a concrete two-request system with a spawned
subtask. -/
theorem credential_isolation_witness :
    Sys.resolve (Sys.attach (fun _ => freshCtx) 0 "tokA") 1 = none ∧
    Sys.resolve (Sys.spawn (Sys.attach (fun _ => freshCtx) 0 "tokA") 0 2) 2 =
      some "tokA" :=
  ⟨(credential_isolation (fun _ => freshCtx) 0 1 2 "tokA"
      (by decide)).2.1 rfl,
   (credential_isolation (fun _ => freshCtx) 0 1 2 "tokA" (by decide)).2.2⟩

/-- C9: for every agent and orchestration endpoint invocation, whatever
the handler does (returns normally or raises, both cases being covered by
the universally quantified handler result), the request-scoped cache is
disabled and the credential reset to none when the request ends. -/
theorem endpoint_cleanup
    (handler orchestrate : Ctx → Except String String × Ctx)
    (token : String) (c : Ctx) :
    (execute_agent_endpoint handler token c).2.cache = none ∧
    (execute_agent_endpoint handler token c).2.token = none ∧
    (mcp_query_endpoint orchestrate token c).2.cache = none ∧
    (mcp_query_endpoint orchestrate token c).2.token = none :=
  ⟨rfl, rfl, rfl, rfl⟩

/-- C10 counterexample: with the broker API reporting a status that is
neither healthy nor intentionally-unavailable and every other check
healthy, the reported overall status is "healthy", not "degraded". -/
theorem health_check_ignores_broker :
    health_check ⟨"healthy", "healthy", "unhealthy", "healthy"⟩ = "healthy" ∧
    statusOkOrUnavailable "unhealthy" = false := by
  constructor
  · rfl
  · rfl

/-- C10 (amended): the overall status is "healthy" iff redis, supabase
and mcp_servers each report healthy-or-intentionally-unavailable; the
broker API check is reported but has no effect on the overall status,
which is "degraded" in every other case. -/
theorem health_check_overall (c : HealthChecks) :
    (health_check c = "healthy" ↔
      (statusOkOrUnavailable c.redis = true ∧
       statusOkOrUnavailable c.supabase = true ∧
       statusOkOrUnavailable c.mcp_servers = true)) ∧
    (∀ b, health_check { c with broker_api := b } = health_check c) ∧
    (health_check c = "healthy" ∨ health_check c = "degraded") := by
  have hall : ([c.redis, c.supabase, c.mcp_servers].all statusOkOrUnavailable
        = true) ↔
      (statusOkOrUnavailable c.redis = true ∧
       statusOkOrUnavailable c.supabase = true ∧
       statusOkOrUnavailable c.mcp_servers = true) := by
    simp [List.all_cons, Bool.and_eq_true]
  have hunfold : health_check c =
      if [c.redis, c.supabase, c.mcp_servers].all statusOkOrUnavailable
      then "healthy" else "degraded" := rfl
  refine ⟨?_, fun b => rfl, ?_⟩
  · rw [hunfold]
    by_cases h : [c.redis, c.supabase, c.mcp_servers].all statusOkOrUnavailable
        = true
    · rw [if_pos h]
      exact iff_of_true rfl (hall.mp h)
    · rw [if_neg h]
      exact iff_of_false (by decide) (fun hc => h (hall.mpr hc))
  · rw [hunfold]
    by_cases h : [c.redis, c.supabase, c.mcp_servers].all statusOkOrUnavailable
        = true
    · rw [if_pos h]
      exact Or.inl rfl
    · rw [if_neg h]
      exact Or.inr rfl

/-- The orchestration operation runs its backend only after the query has
passed validation; a validation failure therefore makes zero backend
calls (the second component counts outbound calls). -/
def mcp_validate_then_run (backend : String → Nat) (v : String) :
    Except String String × Nat :=
  match sanitize_query v with
  | Except.error e => (Except.error e, 0)
  | Except.ok q => (Except.ok q, backend q)

/-- C8: the SQL markers are rejected case-insensitively and with zero
backend calls, but the script-injection markers are compared in lowercase
against the uppercased query and therefore never match: a query
containing "<script>" or "javascript:" is accepted, contradicting the
claim (and the intent of the code's own denylist). -/
theorem sanitize_query_script_bug :
    sanitize_query "<script>alert(1)</script>" =
      Except.ok "<script>alert(1)</script>" ∧
    sanitize_query "javascript:alert(1)" = Except.ok "javascript:alert(1)" ∧
    sanitize_query "please drop table users" =
      Except.error "Query contains potentially dangerous content" ∧
    (∀ backend, (mcp_validate_then_run backend "please drop table users").2
      = 0) :=
  ⟨rfl, rfl, rfl, fun _ => rfl⟩

lemma broadcastDelivered_eq_filter (send : Nat → Bool) :
    ∀ l : List Nat, broadcastDelivered send l = l.filter send
  | [] => rfl
  | c :: rest => by
      rw [broadcastDelivered, List.filter_cons,
        broadcastDelivered_eq_filter send rest]
      by_cases h : send c
      · simp [h]
      · simp [h]

/-- C5 counterexample: with connections [1, 2] registered and the send to
connection 1 raising, connection 2 still receives the event, but
connection 1 is not removed — the registry after the broadcast still
holds both handles. -/
theorem broadcast_keeps_failed_connection :
    (fun c => decide (c ≠ 1)) 1 = false ∧
    (ConnectionManager.broadcast ⟨[1, 2]⟩ (fun c => decide (c ≠ 1))).1
      = [2] ∧
    (ConnectionManager.broadcast ⟨[1, 2]⟩
        (fun c => decide (c ≠ 1))).2.active_connections = [1, 2] :=
  ⟨rfl, rfl, rfl⟩

/-- C5 (amended): broadcast pushes the event to every registered
connection, and a raising send is caught so every other registered
connection still receives the event; however the failed connection is
not removed by broadcast — the registry is unchanged (removal happens
only via `disconnect`, e.g. from the receive loop). -/
theorem broadcast_delivery (m : ConnectionManager) (send : Nat → Bool) :
    (∀ c ∈ m.active_connections, send c = true →
      c ∈ (m.broadcast send).1) ∧
    (m.broadcast send).2 = m := by
  refine ⟨?_, rfl⟩
  intro c hc hsend
  show c ∈ broadcastDelivered send m.active_connections
  rw [broadcastDelivered_eq_filter]
  exact List.mem_filter.mpr ⟨hc, hsend⟩

/-- Witness for C5 (amended) at the counterexample's configuration. -/
theorem broadcast_delivery_witness :
    2 ∈ (ConnectionManager.broadcast ⟨[1, 2]⟩ (fun c => decide (c ≠ 1))).1 ∧
    (ConnectionManager.broadcast ⟨[1, 2]⟩ (fun c => decide (c ≠ 1))).2
      = ⟨[1, 2]⟩ :=
  ⟨(broadcast_delivery ⟨[1, 2]⟩ (fun c => decide (c ≠ 1))).1 2
      (by decide) (by decide),
   (broadcast_delivery ⟨[1, 2]⟩ (fun c => decide (c ≠ 1))).2⟩

lemma cacheInsert_mem (cache : List (String × Response)) (url : String)
    (r : Response) :
    ∀ p ∈ cacheInsert cache url r, p.2 = r ∨ p ∈ cache := by
  intro p hp
  unfold cacheInsert at hp
  by_cases h : cache.any (fun q => q.1 = url) = true
  · rw [if_pos h] at hp
    rcases List.mem_map.mp hp with ⟨q, hq, hpq⟩
    by_cases hq1 : q.1 = url
    · left
      rw [← hpq]
      simp [hq1]
    · right
      rw [← hpq]
      simp only [hq1, if_false, decide_eq_true_eq]
      simpa [hq1] using hq
  · rw [if_neg h] at hp
    rcases List.mem_append.mp hp with h1 | h1
    · right
      exact h1
    · left
      rw [List.mem_singleton.mp h1]

/-- C3 counterexample: with an active (fresh) request cache and the
upstream answering 500 — an unsuccessful response, which is not stored —
two get(url) calls to the same URL issue two outbound calls, not one. -/
theorem get_two_calls_when_first_fails :
    (getTwice (fun _ => ⟨500, "error"⟩) ⟨none, some []⟩ "http://u").2.2.2
      = 2 ∧ (2 : Nat) ≠ 1 :=
  ⟨rfl, by decide⟩

/-- C3 (amended): a cache hit returns the stored response with no
network call; with an active fresh cache, two get(url) calls whose first
response is successful issue exactly one outbound call and both return
that response; with the cache disabled two calls issue two outbound
calls; and only successful responses are ever stored in the cache
(an unsuccessful first response is not cached, so the second call issues
another outbound call, as the counterexample shows). -/
theorem get_cache_behavior (net : String → Response) (url : String) :
    (∀ (c : Ctx) (cache : List (String × Response)) (r : Response),
        c.cache = some cache → lookupCache cache url = some r →
        http_client.get net c url = (r, c, 0)) ∧
    (∀ c : Ctx, c.cache = some [] → (net url).ok = true →
        (getTwice net c url).2.2.2 = 1 ∧
        (getTwice net c url).1 = net url ∧
        (getTwice net c url).2.1 = net url) ∧
    (∀ c : Ctx, c.cache = none → (getTwice net c url).2.2.2 = 2) ∧
    (∀ (c : Ctx) (cache : List (String × Response)),
        c.cache = some cache → (∀ p ∈ cache, p.2.ok = true) →
        ∀ cache', (http_client.get net c url).2.1.cache = some cache' →
        ∀ p ∈ cache', p.2.ok = true) := by
  refine ⟨?_, ?_, ?_, ?_⟩
  · intro c cache r hc hr
    simp [http_client.get, hc, hr]
  · intro c hc hok
    have h1 : http_client.get net c url =
        (net url, { c with cache := some [(url, net url)] }, 1) := by
      simp [http_client.get, hc, hok, lookupCache, cacheInsert]
    have h2 : http_client.get net { c with cache := some [(url, net url)] } url =
        (net url, { c with cache := some [(url, net url)] }, 0) := by
      simp [http_client.get, lookupCache]
    simp [getTwice, h1, h2]
  · intro c hc
    simp [getTwice, http_client.get, hc]
  · intro c cache hc hcache cache' hcache' p hp
    rcases hfind : lookupCache cache url with _ | r
    · by_cases hok : (net url).ok = true
      · have hget : (http_client.get net c url).2.1.cache
            = some (cacheInsert cache url (net url)) := by
          simp [http_client.get, hc, hfind, hok]
        rw [hget] at hcache'
        rw [← Option.some_inj.mp hcache'] at hp
        rcases cacheInsert_mem cache url (net url) p hp with h | h
        · rw [h]
          exact hok
        · exact hcache p h
      · simp only [Bool.not_eq_true] at hok
        have hget : (http_client.get net c url).2.1.cache = some cache := by
          simp [http_client.get, hc, hfind, hok]
        rw [hget] at hcache'
        rw [← Option.some_inj.mp hcache'] at hp
        exact hcache p hp
    · have hget : (http_client.get net c url).2.1.cache = some cache := by
        simp [http_client.get, hc, hfind]
      rw [hget] at hcache'
      rw [← Option.some_inj.mp hcache'] at hp
      exact hcache p hp

/-- Witness for C3 (amended): with the cache active and a successful
upstream, two calls make one outbound call; with the cache disabled,
two calls make two. -/
theorem get_cache_behavior_witness :
    (getTwice (fun _ => ⟨200, "payload"⟩) ⟨none, some []⟩ "http://u").2.2.2
      = 1 ∧
    (getTwice (fun _ => ⟨500, "error"⟩) ⟨none, none⟩ "http://u").2.2.2
      = 2 :=
  ⟨((get_cache_behavior (fun _ => ⟨200, "payload"⟩) "http://u").2.1
      ⟨none, some []⟩ rfl rfl).1,
   (get_cache_behavior (fun _ => ⟨500, "error"⟩) "http://u").2.2.1
      ⟨none, none⟩ rfl⟩

lemma poolStep_length {ε α : Type} (tasks : List (Unit → Except ε α))
    (futures : List (Option (Except ε α))) (i : Nat) :
    (poolStep tasks futures i).length = futures.length := by
  unfold poolStep
  rcases tasks[i]? with _ | f
  · rfl
  · exact List.length_set futures i _

lemma foldl_poolStep_getElem? {ε α : Type}
    (tasks : List (Unit → Except ε α)) :
    ∀ (order : List Nat) (init : List (Option (Except ε α))),
      init.length = tasks.length → ∀ i : Nat,
      (order.foldl (poolStep tasks) init)[i]? =
        if i ∈ order ∧ i < tasks.length
        then (tasks[i]?).map (fun f => some (f ()))
        else init[i]?
  | [], init, _, i => by simp
  | j :: rest, init, hlen, i => by
      rw [List.foldl_cons]
      have hlen' : (poolStep tasks init j).length = tasks.length := by
        rw [poolStep_length, hlen]
      rw [foldl_poolStep_getElem? tasks rest (poolStep tasks init j) hlen' i]
      by_cases hmem : i ∈ rest ∧ i < tasks.length
      · rw [if_pos hmem, if_pos ⟨List.mem_cons_of_mem j hmem.1, hmem.2⟩]
      · rw [if_neg hmem]
        by_cases hij : i = j
        · subst hij
          by_cases hlt : i < tasks.length
          · have hfi : ∃ f, tasks[i]? = some f :=
              ⟨tasks.get ⟨i, hlt⟩, List.getElem?_eq_getElem hlt⟩
            rcases hfi with ⟨f, hf⟩
            have hstep : poolStep tasks init i = init.set i (some (f ())) := by
              unfold poolStep
              rw [hf]
            rw [hstep,
              List.getElem?_set_self (by rw [hlen]; exact hlt),
              if_pos ⟨List.mem_cons_self i rest, hlt⟩, hf]
            rfl
          · have hf : tasks[i]? = none :=
              List.getElem?_eq_none (Nat.le_of_not_lt hlt)
            have hstep : poolStep tasks init i = init := by
              unfold poolStep
              rw [hf]
            rw [hstep, if_neg (fun hcon => hlt hcon.2)]
        · have hstep : (poolStep tasks init j)[i]? = init[i]? := by
            unfold poolStep
            rcases tasks[j]? with _ | f
            · rfl
            · exact List.getElem?_set_ne (fun h => hij h.symm)
          rw [hstep, if_neg]
          intro hcon
          rcases List.mem_cons.mp hcon.1 with h | h
          · exact hij h
          · exact hmem ⟨h, hcon.2⟩

lemma execSchedule_complete {ε α : Type}
    (tasks : List (Unit → Except ε α)) (order : List Nat)
    (hperm : order.Perm (List.range tasks.length)) :
    execSchedule tasks order = tasks.map (fun f => some (f ())) := by
  apply List.ext_getElem?
  intro i
  rw [execSchedule,
    foldl_poolStep_getElem? tasks order _ (List.length_replicate _ _) i,
    List.getElem?_map]
  by_cases hi : i < tasks.length
  · rw [if_pos ⟨hperm.mem_iff.mpr (List.mem_range.mpr hi), hi⟩]
  · rw [if_neg (fun hcon => hi hcon.2), List.getElem?_replicate,
      if_neg hi, List.getElem?_eq_none (Nat.le_of_not_lt hi)]
    rfl

lemma filterMap_id_map_some {ε α : Type} :
    ∀ l : List (Except ε α), (l.map (fun r => some r)).filterMap id = l
  | [] => rfl
  | x :: xs => by
      rw [List.map_cons, List.filterMap_cons]
      simp only [id]
      rw [filterMap_id_map_some xs]

lemma joinResults_cons_error {ε α : Type} (e : ε)
    (rest : List (Except ε α)) :
    joinResults (Except.error e :: rest) = Except.error e := rfl

lemma joinResults_cons_ok {ε α : Type} (a : α) (rest : List (Except ε α)) :
    joinResults (Except.ok a :: rest) =
      match joinResults rest with
      | Except.error e => Except.error e
      | Except.ok as => Except.ok (a :: as) := rfl

lemma joinResults_ok {ε α : Type} :
    ∀ vals : List α,
      joinResults ((vals.map Except.ok : List (Except ε α))) = Except.ok vals
  | [] => rfl
  | v :: vs => by
      rw [List.map_cons, joinResults_cons_ok, joinResults_ok vs]

lemma joinResults_error {ε α : Type} :
    ∀ (l : List (Except ε α)) (i : Nat) (e : ε),
      l[i]? = some (Except.error e) →
      (∀ j, j < i → ∃ a, l[j]? = some (Except.ok a)) →
      joinResults l = Except.error e
  | [], i, e, h, _ => by simp at h
  | x :: rest, 0, e, h, _ => by
      simp only [List.getElem?_cons_zero, Option.some_inj] at h
      rw [h, joinResults_cons_error]
  | x :: rest, i + 1, e, h, hfirst => by
      rcases hfirst 0 (Nat.succ_pos i) with ⟨a, ha⟩
      simp only [List.getElem?_cons_zero, Option.some_inj] at ha
      rw [ha, joinResults_cons_ok,
        joinResults_error rest i e (by simpa using h)
          (fun j hj => by simpa using hfirst (j + 1) (Nat.succ_lt_succ hj))]

/-- C6: for every ordered task list in which no task raises and every
completion schedule (any permutation of the task indices), the
coordinator returns exactly the tasks' results in positional order. -/
theorem run_concurrently_ordered {ε α : Type}
    (tasks : List (Unit → Except ε α)) (order : List Nat)
    (hperm : order.Perm (List.range tasks.length)) (vals : List α)
    (hvals : tasks.map (fun f => f ()) = vals.map Except.ok) :
    fetchParallel tasks order = Except.ok vals := by
  have hmap : tasks.map (fun f => some (f ()))
      = (tasks.map (fun f => f ())).map (fun r => some r) := by
    rw [List.map_map]
    rfl
  unfold fetchParallel
  by_cases hlen : tasks.length ≤ 1
  · rw [if_pos hlen, hvals, joinResults_ok]
  · rw [if_neg hlen, execSchedule_complete tasks order hperm, hmap,
      filterMap_id_map_some, hvals, joinResults_ok]

/-- Witness for C6: three tasks under a schedule where the second task
finishes first still yield the results in submission order. -/
theorem run_concurrently_ordered_witness :
    fetchParallel
      [fun _ => (Except.ok 1 : Except String Nat), fun _ => Except.ok 2,
       fun _ => Except.ok 3] [1, 0, 2] = Except.ok [1, 2, 3] :=
  run_concurrently_ordered
    [fun _ => (Except.ok 1 : Except String Nat), fun _ => Except.ok 2,
     fun _ => Except.ok 3] [1, 0, 2] (by decide) [1, 2, 3] rfl

/-- C7: if some task raises (first failing slot i), the join of the
futures surfaces exactly that task's exception, and every sibling's
future slot still holds that sibling's own result — no task is cancelled
or corrupted by the failure, under any completion schedule. -/
theorem run_concurrently_failure {ε α : Type}
    (tasks : List (Unit → Except ε α)) (order : List Nat)
    (hperm : order.Perm (List.range tasks.length)) (i : Nat) (e : ε)
    (hie : (tasks.map (fun f => f ()))[i]? = some (Except.error e))
    (hfirst : ∀ j, j < i → ∃ a,
      (tasks.map (fun f => f ()))[j]? = some (Except.ok a)) :
    fetchParallel tasks order = Except.error e ∧
    (execSchedule tasks order).filterMap id = tasks.map (fun f => f ()) := by
  have hflat : (execSchedule tasks order).filterMap id
      = tasks.map (fun f => f ()) := by
    rw [execSchedule_complete tasks order hperm,
      show tasks.map (fun f => some (f ()))
          = (tasks.map (fun f => f ())).map (fun r => some r) from by
        rw [List.map_map]
        rfl,
      filterMap_id_map_some]
  refine ⟨?_, hflat⟩
  unfold fetchParallel
  by_cases hlen : tasks.length ≤ 1
  · rw [if_pos hlen]
    exact joinResults_error _ i e hie hfirst
  · rw [if_neg hlen, hflat]
    exact joinResults_error _ i e hie hfirst

/-- Witness for C7: the middle task raises; the join surfaces its
exception and the sibling futures hold their own results. -/
theorem run_concurrently_failure_witness :
    fetchParallel
      [fun _ => (Except.ok 1 : Except String Nat),
       fun _ => Except.error "boom", fun _ => Except.ok 3] [2, 0, 1]
      = Except.error "boom" ∧
    (execSchedule
      [fun _ => (Except.ok 1 : Except String Nat),
       fun _ => Except.error "boom", fun _ => Except.ok 3]
      [2, 0, 1]).filterMap id
      = [Except.ok 1, Except.error "boom", Except.ok 3] := by
  have h := run_concurrently_failure
    [fun _ => (Except.ok 1 : Except String Nat),
     fun _ => Except.error "boom", fun _ => Except.ok 3] [2, 0, 1]
    (by decide) 1 "boom" rfl
    (fun j hj => by
      have hj0 : j = 0 := by omega
      rw [hj0]
      exact ⟨1, rfl⟩)
  exact ⟨h.1, h.2⟩

lemma attemptFrom_zero (rs : RetryStrategy) (method : String)
    (oracle : Nat → Response) (i : Nat) :
    attemptFrom rs method oracle i 0 =
      if shouldRetry rs method (oracle i).status then
        (RequestOutcome.transientFailure (oracle i).status, [])
      else (RequestOutcome.success (oracle i), []) := rfl

lemma attemptFrom_succ (rs : RetryStrategy) (method : String)
    (oracle : Nat → Response) (i remaining : Nat) :
    attemptFrom rs method oracle i (remaining + 1) =
      if shouldRetry rs method (oracle i).status then
        ((attemptFrom rs method oracle (i + 1) remaining).1,
          backoffDelay rs i :: (attemptFrom rs method oracle (i + 1) remaining).2)
      else (RequestOutcome.success (oracle i), []) := rfl

lemma attemptFrom_no_retry (rs : RetryStrategy) (method : String)
    (oracle : Nat → Response) (i remaining : Nat)
    (hs : ¬(shouldRetry rs method (oracle i).status = true)) :
    attemptFrom rs method oracle i remaining
      = (RequestOutcome.success (oracle i), []) := by
  cases remaining with
  | zero => rw [attemptFrom_zero, if_neg hs]
  | succ r => rw [attemptFrom_succ, if_neg hs]

lemma attemptFrom_sleeps_le (rs : RetryStrategy) (method : String)
    (oracle : Nat → Response) :
    ∀ (remaining i : Nat),
      (attemptFrom rs method oracle i remaining).2.length ≤ remaining
  | 0, i => by
      rw [attemptFrom_zero]
      by_cases hs : shouldRetry rs method (oracle i).status = true
      · rw [if_pos hs]
        exact Nat.le_refl 0
      · rw [if_neg hs]
        exact Nat.le_refl 0
  | remaining + 1, i => by
      rw [attemptFrom_succ]
      by_cases hs : shouldRetry rs method (oracle i).status = true
      · rw [if_pos hs]
        exact Nat.succ_le_succ
          (attemptFrom_sleeps_le rs method oracle remaining (i + 1))
      · rw [if_neg hs]
        exact Nat.zero_le _

/-- C4: under the configured retry policy, a response whose status is
not in the forcelist 502/503/504 — in particular every 4xx — is returned
immediately with no retry and no backoff sleep; a request answered 503
on every attempt is retried with backoff sleeps 0.5 and 1 and, after the
3-attempt budget is exhausted, surfaces the transient upstream failure;
a request answered 503 once and then 200 returns the 200 response with
one 0.5 backoff sleep and no error; the backoff schedule is exponential
from 0.5 (0.5, 1, 2); and the attempt count (sleeps + 1) never exceeds
3. -/
theorem retry_policy (method : String)
    (hm : method ∈ retry_strategy.allowed_methods) (oracle : Nat → Response) :
    ((oracle 0).status ∉ retry_strategy.status_forcelist →
      retryRequest retry_strategy method oracle
        = (RequestOutcome.success (oracle 0), [])) ∧
    (400 ≤ (oracle 0).status → (oracle 0).status < 500 →
      retryRequest retry_strategy method oracle
        = (RequestOutcome.success (oracle 0), [])) ∧
    ((∀ i, (oracle i).status = 503) →
      retryRequest retry_strategy method oracle
        = (RequestOutcome.transientFailure 503, [1/2, 1])) ∧
    ((oracle 0).status = 503 → (oracle 1).status = 200 →
      retryRequest retry_strategy method oracle
        = (RequestOutcome.success (oracle 1), [1/2])) ∧
    (backoffDelay retry_strategy 0 = 1/2 ∧ backoffDelay retry_strategy 1 = 1
      ∧ backoffDelay retry_strategy 2 = 2) ∧
    ((retryRequest retry_strategy method oracle).2.length + 1
      ≤ retry_strategy.total) := by
  have hstart : retryRequest retry_strategy method oracle
      = attemptFrom retry_strategy method oracle 0 2 := rfl
  have h503 : shouldRetry retry_strategy method 503 = true := by
    unfold shouldRetry
    rw [Bool.and_eq_true]
    exact ⟨decide_eq_true hm, by decide⟩
  refine ⟨?_, ?_, ?_, ?_, ?_, ?_⟩
  · intro hs
    rw [hstart]
    exact attemptFrom_no_retry retry_strategy method oracle 0 2
      (by simp [shouldRetry, hs])
  · intro h4a h4b
    rw [hstart]
    refine attemptFrom_no_retry retry_strategy method oracle 0 2
      (fun hcon => ?_)
    have hmem : (oracle 0).status ∈ retry_strategy.status_forcelist := by
      have := (Bool.and_eq_true _ _).mp hcon
      exact of_decide_eq_true this.2
    have : (oracle 0).status = 502 ∨ (oracle 0).status = 503 ∨
        (oracle 0).status = 504 := by
      simpa [retry_strategy] using hmem
    rcases this with h | h | h <;> omega
  · intro hall
    rw [hstart, attemptFrom_succ]
    rw [hall 0, if_pos h503, attemptFrom_succ, hall 1, if_pos h503,
      attemptFrom_zero, hall 2, if_pos h503]
    refine Prod.ext rfl ?_
    show [backoffDelay retry_strategy 0, backoffDelay retry_strategy 1]
      = [1/2, 1]
    norm_num [backoffDelay, retry_strategy]
  · intro h0 h1
    rw [hstart, attemptFrom_succ, h0, if_pos h503, attemptFrom_succ]
    have hno : ¬(shouldRetry retry_strategy method (oracle 1).status
        = true) := by
      rw [h1]
      simp [shouldRetry, retry_strategy]
    rw [if_neg hno]
    refine Prod.ext rfl ?_
    show [backoffDelay retry_strategy 0] = [1/2]
    norm_num [backoffDelay, retry_strategy]
  · refine ⟨?_, ?_, ?_⟩ <;> norm_num [backoffDelay, retry_strategy]
  · rw [hstart]
    have := attemptFrom_sleeps_le retry_strategy method oracle 2 0
    show (attemptFrom retry_strategy method oracle 0 2).2.length + 1 ≤ 3
    omega

/-- Witness for C4: a GET answered 503 then 200 succeeds with one 0.5
sleep; a GET answered 503 on every attempt surfaces the transient
failure after sleeps 0.5 and 1. -/
theorem retry_policy_witness :
    retryRequest retry_strategy "GET"
      (fun i => if i = 0 then ⟨503, "unavailable"⟩ else ⟨200, "payload"⟩)
      = (RequestOutcome.success ⟨200, "payload"⟩, [1/2]) ∧
    retryRequest retry_strategy "GET" (fun _ => ⟨503, "unavailable"⟩)
      = (RequestOutcome.transientFailure 503, [1/2, 1]) := by
  constructor
  · have h := (retry_policy "GET" (by decide)
      (fun i => if i = 0 then ⟨503, "unavailable"⟩
        else ⟨200, "payload"⟩)).2.2.2.1 rfl rfl
    simpa using h
  · exact (retry_policy "GET" (by decide)
      (fun _ => ⟨503, "unavailable"⟩)).2.2.1 (fun i => rfl)

/- ──────────────────────────────────────────────────────────────────────
   Rate limiter: the sliding-window admission bound.
   ────────────────────────────────────────────────────────────────────── -/

/-- Membership of a timestamp in the trailing window (T - W, T]. -/
def winTest (W T t : ℚ) : Bool :=
  decide (T - W < t) && decide (t ≤ T)

/-- An admitted-timestamp sequence is `Spaced` when, at the moment each
entry was admitted, fewer than `max` earlier admitted entries lay within
its trailing window — the invariant the limiter's check enforces. -/
def Spaced (max : Nat) (W : ℚ) (L : List ℚ) : Prop :=
  ∀ (L₁ : List ℚ) (a : ℚ) (L₂ : List ℚ), L = L₁ ++ a :: L₂ →
    (L₁.filter (fun t => decide (a - W < t))).length < max

lemma append_singleton_split {α : Type} (A : List α) (x a : α)
    (L₁ L₂ : List α) (h : A ++ [x] = L₁ ++ a :: L₂) :
    (L₁ = A ∧ a = x ∧ L₂ = []) ∨
    ∃ L₂', A = L₁ ++ a :: L₂' ∧ L₂ = L₂' ++ [x] := by
  induction L₂ using List.reverseRecOn with
  | nil =>
      left
      rcases List.append_inj' h rfl with ⟨hA, hx⟩
      exact ⟨hA.symm, (List.cons.injEq _ _ _ _).mp hx.symm |>.1, rfl⟩
  | append_singleton M y _ =>
      right
      rw [List.append_cons L₁ a (M ++ [y]), ← List.append_assoc] at h
      rcases List.append_inj' h rfl with ⟨hA, hx⟩
      have hy : y = x := ((List.cons.injEq _ _ _ _).mp hx.symm).1
      refine ⟨M, ?_, ?_⟩
      · rw [hA]
        simp
      · rw [hy]

lemma Spaced.snoc {max : Nat} {W : ℚ} {A : List ℚ} {x : ℚ}
    (hsp : Spaced max W A)
    (hx : (A.filter (fun t => decide (x - W < t))).length < max) :
    Spaced max W (A ++ [x]) := by
  intro L₁ a L₂ h
  rcases append_singleton_split A x a L₁ L₂ h with ⟨hL₁, ha, _⟩ | ⟨L₂', hA, _⟩
  · rw [hL₁, ha]
    exact hx
  · exact hsp L₁ a L₂' hA

lemma Spaced.window_bound {max : Nat} {W : ℚ} :
    ∀ L : List ℚ, Spaced max W L → ∀ T : ℚ,
      (L.filter (winTest W T)).length ≤ max := by
  intro L
  induction L using List.reverseRecOn with
  | nil =>
      intro _ T
      exact Nat.zero_le max
  | append_singleton M x ih =>
      intro hsp T
      have hspM : Spaced max W M := by
        intro L₁ a L₂ hM
        exact hsp L₁ a (L₂ ++ [x]) (by rw [hM]; simp)
      rw [List.filter_append]
      by_cases hx : winTest W T x = true
      · have hxT : x ≤ T :=
          of_decide_eq_true ((Bool.and_eq_true _ _).mp hx).2
        have hsub : (M.filter (winTest W T)).length
            ≤ (M.filter (fun t => decide (x - W < t))).length := by
          apply List.Sublist.length_le
          apply List.monotone_filter_right
          intro t ht
          have h1 : T - W < t :=
            of_decide_eq_true ((Bool.and_eq_true _ _).mp ht).1
          exact decide_eq_true (by linarith)
        have hlast := hsp M x [] rfl
        have hone : (List.filter (winTest W T) [x]).length ≤ 1 := by
          simp [List.filter_singleton, hx]
        rw [List.length_append]
        omega
      · have hnil : List.filter (winTest W T) [x] = [] := by
          simp [List.filter_singleton, hx]
        rw [hnil, List.append_nil]
        exact ih hspM T

lemma is_allowed_def (rl : RateLimiter) (ts : List ℚ) (now : ℚ) :
    rl.is_allowed ts now =
      if rl.max_requests ≤
          (ts.filter (fun t => decide (now - rl.window_seconds < t))).length
      then (false, ts.filter (fun t => decide (now - rl.window_seconds < t)))
      else (true,
        ts.filter (fun t => decide (now - rl.window_seconds < t)) ++ [now])
      := rfl

lemma is_allowed_reject (rl : RateLimiter) (ts : List ℚ) (now : ℚ)
    (h : rl.max_requests ≤
      (ts.filter (fun t => decide (now - rl.window_seconds < t))).length) :
    rl.is_allowed ts now =
      (false, ts.filter (fun t => decide (now - rl.window_seconds < t))) := by
  rw [is_allowed_def, if_pos h]

lemma is_allowed_grant (rl : RateLimiter) (ts : List ℚ) (now : ℚ)
    (h : ¬(rl.max_requests ≤
      (ts.filter (fun t => decide (now - rl.window_seconds < t))).length)) :
    rl.is_allowed ts now =
      (true,
        ts.filter (fun t => decide (now - rl.window_seconds < t)) ++ [now])
      := by
  rw [is_allowed_def, if_neg h]

lemma admitted_nil (rl : RateLimiter) (ts : List ℚ) :
    rl.admitted ts [] = [] := rfl

lemma admitted_cons (rl : RateLimiter) (ts : List ℚ) (now : ℚ)
    (rest : List ℚ) :
    rl.admitted ts (now :: rest) =
      (if (rl.is_allowed ts now).1 then [now] else []) ++
        rl.admitted (rl.is_allowed ts now).2 rest := rfl

lemma admitted_spaced (rl : RateLimiter) (times : List ℚ) :
    ∀ s A dropped : List ℚ,
      List.Pairwise (· ≤ ·) times →
      A.Perm (s ++ dropped) →
      (∀ t ∈ dropped, ∀ u ∈ times, t ≤ u - rl.window_seconds) →
      Spaced rl.max_requests rl.window_seconds A →
      Spaced rl.max_requests rl.window_seconds (A ++ rl.admitted s times) := by
  induction times with
  | nil =>
      intro s A dropped _ _ _ hsp
      rw [admitted_nil, List.append_nil]
      exact hsp
  | cons now rest ih =>
      intro s A dropped hpw hperm hdrop hsp
      have hnow_le : ∀ u ∈ rest, now ≤ u := (List.pairwise_cons.mp hpw).1
      have hpw' : List.Pairwise (· ≤ ·) rest := (List.pairwise_cons.mp hpw).2
      have hsplit : s.Perm
          (s.filter (fun t => decide (now - rl.window_seconds < t)) ++
            s.filter (fun t => !decide (now - rl.window_seconds < t))) :=
        (List.filter_append_perm _ s).symm
      have hdrop' : ∀ t ∈ dropped ++
            s.filter (fun t => !decide (now - rl.window_seconds < t)),
          ∀ u ∈ rest, t ≤ u - rl.window_seconds := by
        intro t ht u hu
        rcases List.mem_append.mp ht with h | h
        · exact hdrop t h u (List.mem_cons_of_mem now hu)
        · have h1 : ¬(now - rl.window_seconds < t) := by
            have h2 := List.of_mem_filter h
            simpa using h2
          have h2 : now ≤ u := hnow_le u hu
          have h3 : t ≤ now - rl.window_seconds := not_lt.mp h1
          linarith
      have hpermA : A.Perm
          (s.filter (fun t => decide (now - rl.window_seconds < t)) ++
            (dropped ++
              s.filter (fun t => !decide (now - rl.window_seconds < t)))) := by
        refine hperm.trans ((hsplit.append_right dropped).trans ?_)
        rw [List.append_assoc]
        exact List.Perm.append_left _ List.perm_append_comm
      have hdropnil : dropped.filter
          (fun t => decide (now - rl.window_seconds < t)) = [] := by
        rw [List.filter_eq_nil_iff]
        intro a ha
        have h1 := hdrop a ha now (List.mem_cons_self now rest)
        simp only [decide_eq_true_eq]
        linarith
      have hsdropnil : (s.filter
            (fun t => !decide (now - rl.window_seconds < t))).filter
          (fun t => decide (now - rl.window_seconds < t)) = [] := by
        rw [List.filter_eq_nil_iff]
        intro a ha
        have h1 := List.of_mem_filter ha
        simpa using h1
      have hkf : (s.filter (fun t => decide (now - rl.window_seconds < t))
            ).filter (fun t => decide (now - rl.window_seconds < t))
          = s.filter (fun t => decide (now - rl.window_seconds < t)) :=
        List.filter_eq_self.mpr (fun a ha => (List.mem_filter.mp ha).2)
      have hcount : (A.filter
            (fun t => decide (now - rl.window_seconds < t))).length
          = (s.filter
            (fun t => decide (now - rl.window_seconds < t))).length := by
        rw [(hpermA.filter _).length_eq, List.filter_append, List.filter_append,
          hkf, hdropnil, hsdropnil]
        simp
      by_cases hadm : rl.max_requests ≤
          (s.filter (fun t => decide (now - rl.window_seconds < t))).length
      · rw [admitted_cons, is_allowed_reject rl s now hadm]
        simp only [Bool.false_eq_true, if_false, List.nil_append]
        exact ih (s.filter (fun t => decide (now - rl.window_seconds < t))) A
          (dropped ++ s.filter (fun t => !decide (now - rl.window_seconds < t)))
          hpw' hpermA hdrop' hsp
      · rw [admitted_cons, is_allowed_grant rl s now hadm]
        simp only [if_true]
        have hsp' : Spaced rl.max_requests rl.window_seconds (A ++ [now]) :=
          hsp.snoc (by rw [hcount]; exact Nat.lt_of_not_le hadm)
        have hpermA' : (A ++ [now]).Perm
            ((s.filter (fun t => decide (now - rl.window_seconds < t)) ++ [now])
              ++ (dropped ++
                s.filter (fun t => !decide (now - rl.window_seconds < t)))) := by
          have hstep : ((s.filter (fun t =>
                  decide (now - rl.window_seconds < t)) ++ [now]) ++
                (dropped ++ s.filter (fun t =>
                  !decide (now - rl.window_seconds < t)))).Perm
              ((s.filter (fun t => decide (now - rl.window_seconds < t)) ++
                (dropped ++ s.filter (fun t =>
                  !decide (now - rl.window_seconds < t)))) ++ [now]) := by
            rw [List.append_assoc, List.append_assoc]
            exact List.Perm.append_left _ List.perm_append_comm
          exact (hpermA.append_right [now]).trans hstep.symm
        have hgoal := ih
          (s.filter (fun t => decide (now - rl.window_seconds < t)) ++ [now])
          (A ++ [now])
          (dropped ++ s.filter (fun t => !decide (now - rl.window_seconds < t)))
          hpw' hpermA' hdrop' hsp'
        rw [List.append_assoc] at hgoal
        simpa using hgoal

lemma run_nil (rl : RateLimiter) (ts : List ℚ) : rl.run ts [] = ([], ts) :=
  rfl

lemma run_cons (rl : RateLimiter) (ts : List ℚ) (now : ℚ) (rest : List ℚ) :
    rl.run ts (now :: rest) =
      ((rl.is_allowed ts now).1 ::
          (rl.run (rl.is_allowed ts now).2 rest).1,
        (rl.run (rl.is_allowed ts now).2 rest).2) := rfl

lemma run_length (rl : RateLimiter) :
    ∀ (times ts : List ℚ), (rl.run ts times).1.length = times.length
  | [], ts => rfl
  | now :: rest, ts => by
      rw [run_cons, List.length_cons, run_length rl rest]
      rfl

lemma run_exhausts (rl : RateLimiter) :
    ∀ (times s : List ℚ),
      (∀ t ∈ s, ∀ u ∈ times, u - rl.window_seconds < t) →
      (∀ u ∈ times, ∀ u' ∈ times, u' - rl.window_seconds < u) →
      s.length + times.length = rl.max_requests + 1 →
      times ≠ [] →
      ((rl.run s times).1).getLast? = some false
  | [], _, _, _, _, hne => absurd rfl hne
  | now :: rest, s, hwin, htimes, hlen, _ => by
      have hkept : s.filter (fun t => decide (now - rl.window_seconds < t))
          = s :=
        List.filter_eq_self.mpr (fun t ht =>
          decide_eq_true (hwin t ht now (List.mem_cons_self _ _)))
      cases rest with
      | nil =>
          have hs : rl.max_requests ≤
              (s.filter
                (fun t => decide (now - rl.window_seconds < t))).length := by
            rw [hkept]
            simp only [List.length_cons, List.length_nil] at hlen
            omega
          rw [run_cons, is_allowed_reject rl s now hs, run_nil]
          rfl
      | cons r2 rest' =>
          have hlt : ¬(rl.max_requests ≤
              (s.filter
                (fun t => decide (now - rl.window_seconds < t))).length) := by
            rw [hkept]
            simp only [List.length_cons, List.length_nil] at hlen
            omega
          rw [run_cons, is_allowed_grant rl s now hlt, hkept]
          have hwin' : ∀ t ∈ s ++ [now], ∀ u ∈ r2 :: rest',
              u - rl.window_seconds < t := by
            intro t ht u hu
            rcases List.mem_append.mp ht with h | h
            · exact hwin t h u (List.mem_cons_of_mem now hu)
            · rw [List.mem_singleton.mp h]
              exact htimes now (List.mem_cons_self _ _) u
                (List.mem_cons_of_mem now hu)
          have htimes' : ∀ u ∈ r2 :: rest', ∀ u' ∈ r2 :: rest',
              u' - rl.window_seconds < u := fun u hu u' hu' =>
            htimes u (List.mem_cons_of_mem now hu) u'
              (List.mem_cons_of_mem now hu')
          have hlen' : (s ++ [now]).length + (r2 :: rest').length
              = rl.max_requests + 1 := by
            simp only [List.length_append, List.length_cons,
              List.length_nil] at hlen ⊢
            omega
          have hrec := run_exhausts rl (r2 :: rest') (s ++ [now]) hwin'
            htimes' hlen' (by simp)
          have hlenrec : (rl.run (s ++ [now]) (r2 :: rest')).1.length
              = rest'.length + 1 := by
            rw [run_length rl]
            rfl
          rcases hlist : (rl.run (s ++ [now]) (r2 :: rest')).1 with _ | ⟨b, bs⟩
          · rw [hlist] at hlenrec
            simp at hlenrec
          · rw [hlist] at hrec
            show (true :: b :: bs).getLast? = some false
            rw [List.getLast?_cons_cons]
            exact hrec

/-- C2: for every key (modelled by its stored timestamp list, starting
empty) and every nondecreasing sequence of call times, (i) at most
max_requests admitted times fall within any trailing window of length
window_seconds; (ii) a sequence of max_requests + 1 calls all lying in
one trailing window ends with a refusal — the (max_requests+1)-th call
returns false; and (iii) once window_seconds have elapsed past the last
stored (admitted) timestamp, is_allowed returns true again. -/
theorem rate_limiter_sliding_window (rl : RateLimiter) :
    (∀ times : List ℚ, List.Pairwise (· ≤ ·) times → ∀ T : ℚ,
      ((rl.admitted [] times).filter
        (winTest rl.window_seconds T)).length ≤ rl.max_requests) ∧
    (∀ (times : List ℚ) (T : ℚ),
      times.length = rl.max_requests + 1 →
      (∀ t ∈ times, T - rl.window_seconds < t ∧ t ≤ T) →
      ((rl.run [] times).1).getLast? = some false) ∧
    (∀ (s : List ℚ) (last now : ℚ),
      1 ≤ rl.max_requests → (∀ t ∈ s, t ≤ last) →
      last + rl.window_seconds ≤ now →
      (rl.is_allowed s now).1 = true) := by
  refine ⟨?_, ?_, ?_⟩
  · intro times hpw T
    have hsp0 : Spaced rl.max_requests rl.window_seconds [] := by
      intro L₁ a L₂ h
      exact absurd h (by simp)
    have hsp := admitted_spaced rl times [] [] [] hpw (by simp)
      (by intro t ht; cases ht) hsp0
    rw [List.nil_append] at hsp
    exact Spaced.window_bound _ hsp T
  · intro times T hlenT hwinT
    have htimes : ∀ u ∈ times, ∀ u' ∈ times,
        u' - rl.window_seconds < u := by
      intro u hu u' hu'
      have h1 := hwinT u hu
      have h2 := hwinT u' hu'
      linarith [h1.1, h2.2]
    have hne : times ≠ [] := by
      intro hcon
      rw [hcon] at hlenT
      simp at hlenT
    exact run_exhausts rl times [] (by intro t ht; cases ht) htimes
      (by simp [hlenT]) hne
  · intro s last now h1 hlast helapsed
    have hnil : s.filter (fun t => decide (now - rl.window_seconds < t))
        = [] := by
      rw [List.filter_eq_nil_iff]
      intro a ha
      have h2 := hlast a ha
      simp only [decide_eq_true_eq, not_lt]
      linarith
    have hadm : ¬(rl.max_requests ≤
        (s.filter
          (fun t => decide (now - rl.window_seconds < t))).length) := by
      rw [hnil]
      simp only [List.length_nil]
      omega
    rw [is_allowed_grant rl s now hadm]

/-- Witness for C2 at max_requests = 2, window_seconds = 10: the admitted
times of the call sequence 0, 1, 2, 12 within the trailing window
(2, 12] number at most 2; the three calls 0, 1, 2 (all inside the window
(-8, 2]) end with a refusal; and a call 10 seconds after the last
admitted timestamp 0 is admitted again. -/
theorem rate_limiter_sliding_window_witness :
    ((RateLimiter.admitted ⟨2, 10⟩ [] [0, 1, 2, 12]).filter
      (winTest (10 : ℚ) 12)).length ≤ 2 ∧
    ((RateLimiter.run ⟨2, 10⟩ [] [0, 1, 2]).1).getLast? = some false ∧
    (RateLimiter.is_allowed ⟨2, 10⟩ [0] 10).1 = true := by
  refine ⟨?_, ?_, ?_⟩
  · exact (rate_limiter_sliding_window ⟨2, 10⟩).1 [0, 1, 2, 12]
      (by norm_num [List.pairwise_cons]) 12
  · exact (rate_limiter_sliding_window ⟨2, 10⟩).2.1 [0, 1, 2] 2 rfl
      (by intro t ht; fin_cases ht <;> constructor <;> norm_num)
  · exact (rate_limiter_sliding_window ⟨2, 10⟩).2.2 [0] 0 10
      (by norm_num) (by intro t ht; fin_cases ht <;> norm_num)
      (by norm_num)
